import Mathlib

/-!
Verification of the deep-research agent loop
(`supabase/functions/deep-research/index.ts`).

The heart of the program is a sequential agent loop over a mutable
`AgentState`: each iteration increments the step counter, possibly
dequeues a gap question, asks a policy collaborator for the next action
and dispatches on it (search / read / reflect / answer), emitting
server-sent events along the way.  External collaborators (web search,
URL extraction, the LLM policy and the report synthesizer) are modelled
as oracle functions gathered in the `Oracles` structure; the fallible
ones (`policy`, `synthesize`) return `Except String` mirroring the
exceptions of `callLLM`, while `search` and `extract` are total exactly
as `tavilySearch` and `readUrl` are (both catch their own errors and
return empty / null).  The loop itself is embedded as a fuel-indexed
recursion `runLoopAux`; the fuel is exactly the remaining step budget
`MAX_STEPS - state.step` (each iteration increments `step` by one, so
the `while (state.step < MAX_STEPS && ...)` condition of the source is
represented faithfully: the fuel reaches zero precisely when the first
conjunct of the condition turns false).
-/

namespace DeepResearch

/-! ## Configuration constants (source lines 60-64) -/

def MAX_STEPS : Nat := 25
def MAX_FAILED_ATTEMPTS : Nat := 3
def MAX_URLS_PER_STEP : Nat := 3
def MAX_SEARCH_RESULTS : Nat := 5

/-! ## Helper: truncateToTokens (source lines 68-72)

JS strings are sequences of code units; `text.length` and
`text.substring(0, n)` are modelled by `String.length` and taking the
first `n` characters of `String.data`. -/

def truncateToTokens (text : String) (maxTokens : Nat) : String :=
  let maxChars := maxTokens * 4
  if text.length ≤ maxChars then text
  else String.mk (text.data.take maxChars) ++ "..."

/-! ## Data model (source lines 10-56) -/

structure SearchResult where
  title : String
  url : String
  content : String
  deriving DecidableEq

inductive KnowledgeType where
  | search
  | url
  | reflection
  deriving DecidableEq

structure KnowledgeItem where
  question : String
  answer : String
  sources : List String
  type : KnowledgeType
  deriving DecidableEq

structure GapQuestion where
  question : String
  priority : Int
  reason : String
  deriving DecidableEq

/-- `visitedUrls` and `searchQueries` are JS `Set`s; they are modelled as
insertion-ordered duplicate-free lists (the code only ever inserts an
element after checking `has`, so plain append is exact). -/
structure AgentState where
  originalQuestion : String
  currentQuestion : String
  gaps : List GapQuestion
  knowledge : List KnowledgeItem
  visitedUrls : List String
  searchQueries : List String
  step : Nat
  totalTokensUsed : Nat
  failedAttempts : Nat
  deriving DecidableEq

/-- The decision returned by `getAgentAction`.  The `action` tag is kept
as a raw string because `JSON.parse(response) as AgentAction` performs
no validation: any tag can reach the dispatch. -/
structure AgentAction where
  action : String
  reasoning : String
  searchQueries : Option (List String) := none
  urlsToRead : Option (List String) := none
  gapQuestions : Option (List GapQuestion) := none
  finalAnswer : Option String := none
  deriving DecidableEq

inductive EventType where
  | thinking
  | searching
  | reading
  | reflecting
  | knowledge
  | gap
  | progress
  | answer
  | error
  deriving DecidableEq

structure RunStats where
  totalSteps : Nat
  knowledgeItems : Nat
  urlsVisited : Nat
  searchesPerformed : Nat
  gapsInvestigated : Nat
  deriving DecidableEq

/-- Structured payloads attached to events (the `data` field). -/
inductive EventData where
  | actionTag (tag : String)
  | progressCounts (knowledgeCount gapsCount urlsVisited : Nat)
  | searchInfo (resultCount : Nat) (urls : List String)
  | urlContent (url : String) (contentLength : Nat)
  | gapInfo (g : GapQuestion)
  | answerInfo (report : String) (stats : RunStats)
  deriving DecidableEq

structure StreamEvent where
  type : EventType
  message : String
  data : Option EventData := none
  step : Option Nat := none
  totalSteps : Option Nat := none
  deriving DecidableEq

/-! ## External collaborators -/

/-- Oracles for the four external collaborators.  `search` and `extract`
never throw (their implementations catch every error and return `[]` /
`null` respectively, source lines 76-135); `policy` and `synthesize`
can throw, which `Except.error` models. -/
structure Oracles where
  search : String → List SearchResult
  extract : String → Option String
  policy : AgentState → List String → Except String AgentAction
  synthesize : String → List KnowledgeItem → Except String String

/-- A policy collaborator that never throws. -/
def policyTotal (O : Oracles) : Prop :=
  ∀ s urls, ∃ a, O.policy s urls = Except.ok a

/-! ## getAgentAction fallback (source lines 246-264)

`getAgentAction` feeds the LLM response to `JSON.parse`; on a parse
failure it swallows the exception and returns a default `search`
decision.  The parse step (`JSON.parse(response) as AgentAction`) is
modelled by an arbitrary function `parse`. -/

def defaultAction (state : AgentState) : AgentAction :=
  { action := "search"
    reasoning := "Failed to parse previous response, trying a new search"
    searchQueries := some [state.currentQuestion] }

def getAgentAction (parse : String → Option AgentAction) (state : AgentState)
    (response : String) : AgentAction :=
  match parse response with
  | some a => a
  | none => defaultAction state

/-! ## Initial state (source lines 347-357) -/

def initialState (topic : String) : AgentState :=
  { originalQuestion := topic
    currentQuestion := topic
    gaps := []
    knowledge := []
    visitedUrls := []
    searchQueries := []
    step := 0
    totalTokensUsed := 0
    failedAttempts := 0 }

/-! ## Event constructors -/

def startEvent (topic : String) : StreamEvent :=
  { type := .thinking
    message := "Starting deep research on: \"" ++ topic ++ "\""
    step := some 0
    totalSteps := some MAX_STEPS }

def progressEvent (s : AgentState) : StreamEvent :=
  { type := .progress
    message := "Research step " ++ toString s.step ++ "/" ++ toString MAX_STEPS
    step := some s.step
    totalSteps := some MAX_STEPS
    data := some (.progressCounts s.knowledge.length s.gaps.length s.visitedUrls.length) }

def searchingEvent (stp : Nat) (qs : List String) : StreamEvent :=
  { type := .searching
    message := "Searching: " ++ String.intercalate " | " qs
    step := some stp }

def searchKnowledgeEvent (stp : Nat) (q : String) (results : List SearchResult) : StreamEvent :=
  { type := .knowledge
    message := "Found " ++ toString results.length ++ " results for \"" ++ q ++ "\""
    step := some stp
    data := some (.searchInfo results.length (results.map (·.url))) }

def readingSummaryEvent (stp : Nat) (n : Nat) : StreamEvent :=
  { type := .reading
    message := "Reading " ++ toString n ++ " sources deeply..."
    step := some stp }

def readingUrlEvent (stp : Nat) (u : String) : StreamEvent :=
  { type := .reading
    message := "Reading: " ++ u
    step := some stp }

def urlKnowledgeEvent (stp : Nat) (u : String) (content : String) : StreamEvent :=
  { type := .knowledge
    message := "Extracted content from " ++ u
    step := some stp
    data := some (.urlContent u content.length) }

def reflectingEvent (stp : Nat) (n : Nat) : StreamEvent :=
  { type := .reflecting
    message := "Identified " ++ toString n ++ " knowledge gaps to investigate"
    step := some stp }

def gapEvent (stp : Nat) (g : GapQuestion) : StreamEvent :=
  { type := .gap
    message := "Gap identified: " ++ g.question
    step := some stp
    data := some (.gapInfo g) }

def statsOf (s : AgentState) : RunStats :=
  { totalSteps := s.step
    knowledgeItems := s.knowledge.length
    urlsVisited := s.visitedUrls.length
    searchesPerformed := s.searchQueries.length
    gapsInvestigated := s.gaps.length }

def answerEvent (s : AgentState) (msg report : String) : StreamEvent :=
  { type := .answer
    message := msg
    step := some s.step
    data := some (.answerInfo report (statsOf s)) }

def errorEvent (msg : String) : StreamEvent :=
  { type := .error
    message := "Error: " ++ msg }

/-! ## Action execution (source lines 416-554)

Each action executor is embedded as a recursion over the proposed
list, threading the state exactly as the `for`-loops of the source do
and recording the arguments actually passed to the external
collaborator in `calls`. -/

structure ProcOut where
  state : AgentState
  avail : List String
  events : List StreamEvent
  calls : List String

/-- The `availableUrls` update inside a successful search
(source lines 431-435): push each result URL not already present. -/
def addUrls (avail : List String) (results : List SearchResult) : List String :=
  results.foldl (fun acc r => if r.url ∈ acc then acc else acc ++ [r.url]) avail

/-- The knowledge item created from one search (source lines 438-444). -/
def searchItem (q : String) (results : List SearchResult) : KnowledgeItem :=
  { question := q
    answer := String.intercalate "\n\n" (results.map fun r => r.title ++ ": " ++ r.content)
    sources := results.map (·.url)
    type := .search }

/-- One iteration of the search for-loop for a fresh query `q`
(source lines 425-452): record the query, invoke the provider, and on
non-empty results extend `availableUrls` and `knowledge` and emit a
`knowledge` event. -/
def searchStep (sr : String → List SearchResult) (s : AgentState) (avail : List String)
    (q : String) : AgentState × List String × List StreamEvent :=
  let s1 := { s with searchQueries := s.searchQueries ++ [q] }
  let results := sr q
  if results.length > 0 then
    ({ s1 with knowledge := s1.knowledge ++ [searchItem q results] },
      addUrls avail results,
      [searchKnowledgeEvent s.step q results])
  else (s1, avail, [])

/-- The `for (const query of action.searchQueries)` loop
(source lines 423-453).  `calls` records the queries actually passed to
the search provider. -/
def processSearch (sr : String → List SearchResult) (s : AgentState) (avail : List String) :
    List String → ProcOut
  | [] => ⟨s, avail, [], []⟩
  | q :: qs =>
    if q ∈ s.searchQueries then
      processSearch sr s avail qs
    else
      let t := searchStep sr s avail q
      let r := processSearch sr t.1 t.2.1 qs
      ⟨r.state, r.avail, t.2.2 ++ r.events, q :: r.calls⟩

structure ReadOut where
  state : AgentState
  events : List StreamEvent
  calls : List String

/-- The knowledge item created from one URL extraction
(source lines 474-479). -/
def urlItem (u : String) (content : String) : KnowledgeItem :=
  { question := "Content from " ++ u
    answer := content
    sources := [u]
    type := .url }

/-- One iteration of the read for-loop for an unvisited URL `u`
(source lines 463-487): mark it visited, invoke the extractor, and on
truthy (non-null, non-empty) content extend `knowledge` and emit a
`knowledge` event.  `if (content)` in JS is false for `null` and for
the empty string, hence the two skip cases. -/
def readStep (ex : String → Option String) (s : AgentState) (u : String) :
    AgentState × List StreamEvent :=
  let s1 := { s with visitedUrls := s.visitedUrls ++ [u] }
  match ex u with
  | some content =>
    if content = "" then (s1, [])
    else ({ s1 with knowledge := s1.knowledge ++ [urlItem u content] },
      [urlKnowledgeEvent s.step u content])
  | none => (s1, [])

/-- The `for (const url of action.urlsToRead.slice(0, MAX_URLS_PER_STEP))`
loop (source lines 461-488).  `calls` records the URLs actually passed
to the extractor. -/
def processRead (ex : String → Option String) (s : AgentState) :
    List String → ReadOut
  | [] => ⟨s, [], []⟩
  | u :: us =>
    if u ∈ s.visitedUrls then
      processRead ex s us
    else
      let t := readStep ex s u
      let r := processRead ex t.1 us
      ⟨r.state, readingUrlEvent s.step u :: (t.2 ++ r.events), u :: r.calls⟩

/-- The body of `for (const gap of action.gapQuestions)`
(source lines 497-505). -/
def processReflect (s : AgentState) : List GapQuestion → AgentState × List StreamEvent
  | [] => (s, [])
  | g :: gs =>
    let s1 := { s with gaps := s.gaps ++ [g] }
    let r := processReflect s1 gs
    (r.1, gapEvent s.step g :: r.2)

inductive DispatchKind where
  | next
  | answered
  | thrown (msg : String)
  deriving DecidableEq

structure StepOut where
  state : AgentState
  avail : List String
  events : List StreamEvent
  searchCalls : List String
  extractCalls : List String
  synthCalls : Nat
  result : DispatchKind

/-- The `if/else if` dispatch over the decision's action tag
(source lines 416-554).  A tag outside the four known ones, or a known
tag whose payload field is absent (`undefined`/`null`, i.e. falsy in
JS), matches no branch and falls through to the inter-step delay. -/
def dispatchAction (O : Oracles) (a : AgentAction) (s : AgentState) (avail : List String) :
    StepOut :=
  if a.action = "search" then
    match a.searchQueries with
    | some qs =>
      let r := processSearch O.search s avail qs
      ⟨r.state, r.avail, searchingEvent s.step qs :: r.events, r.calls, [], 0, .next⟩
    | none => ⟨s, avail, [], [], [], 0, .next⟩
  else if a.action = "read" then
    match a.urlsToRead with
    | some urls =>
      let r := processRead O.extract s (urls.take MAX_URLS_PER_STEP)
      ⟨r.state, avail, readingSummaryEvent s.step urls.length :: r.events, [], r.calls, 0, .next⟩
    | none => ⟨s, avail, [], [], [], 0, .next⟩
  else if a.action = "reflect" then
    match a.gapQuestions with
    | some gs =>
      let r := processReflect s gs
      let s2 := if r.1.gaps.any (fun g => g.question == s.originalQuestion) then r.1
        else { r.1 with gaps := r.1.gaps ++
          [{ question := s.originalQuestion, priority := 1, reason := "Main research question" }] }
      ⟨s2, avail, reflectingEvent s.step gs.length :: r.2, [], [], 0, .next⟩
    | none => ⟨s, avail, [], [], [], 0, .next⟩
  else if a.action = "answer" then
    if s.knowledge.length < 3 then
      ⟨{ s with failedAttempts := s.failedAttempts + 1 }, avail,
        [{ type := .thinking
           message := "Not enough knowledge accumulated yet. Continuing research..."
           step := some s.step }], [], [], 0, .next⟩
    else
      let ev : StreamEvent :=
        { type := .thinking
          message := "Synthesizing comprehensive research report..."
          step := some s.step }
      match O.synthesize s.originalQuestion s.knowledge with
      | .ok report =>
        ⟨s, avail, [ev, answerEvent s "Research complete!" report], [], [], 1, .answered⟩
      | .error e => ⟨s, avail, [ev], [], [], 1, .thrown e⟩
  else ⟨s, avail, [], [], [], 0, .next⟩

/-! ## One loop iteration (source lines 379-557) -/

def incStep (s : AgentState) : AgentState := { s with step := s.step + 1 }

/-- Dequeue of the front gap question (source lines 394-403). -/
def gapDequeue (s : AgentState) : AgentState × List StreamEvent :=
  match s.gaps with
  | [] => (s, [])
  | g :: rest =>
    if s.step > 2 then
      ({ s with gaps := rest, currentQuestion := g.question },
        [{ type := .thinking
           message := "Investigating sub-question: \"" ++ g.question ++ "\""
           step := some s.step }])
    else (s, [])

/-- The candidate-URL list handed to the policy (source line 406). -/
def candidateUrls (s : AgentState) (avail : List String) : List String :=
  avail.filter (fun u => !(s.visitedUrls.contains u))

def runStep (O : Oracles) (s : AgentState) (avail : List String) : StepOut :=
  let s1 := incStep s
  let ev0 := progressEvent s1
  let d := gapDequeue s1
  match O.policy d.1 (candidateUrls d.1 avail) with
  | .error e => ⟨d.1, avail, ev0 :: d.2, [], [], 0, .thrown e⟩
  | .ok a =>
    let ev2 : StreamEvent :=
      { type := .thinking
        message := a.reasoning
        step := some d.1.step
        data := some (.actionTag a.action) }
    let r := dispatchAction O a d.1 avail
    { r with events := ev0 :: (d.2 ++ ev2 :: r.events) }

/-! ## The loop and the degraded-completion path (source lines 379-593) -/

structure RunOut where
  state : AgentState
  avail : List String
  events : List StreamEvent
  searchCalls : List String
  extractCalls : List String
  synthCalls : Nat
  iterations : Nat

/-- The post-loop degraded synthesis (source lines 560-585), together
with the outer catch converting a synthesis exception into a terminal
`error` event (source lines 586-593).  Returns the emitted events and
the number of synthesis attempts (always one here). -/
def postLoop (O : Oracles) (s : AgentState) : List StreamEvent × Nat :=
  let ev : StreamEvent :=
    { type := .thinking
      message := "Reached maximum research depth. Synthesizing findings..."
      step := some s.step }
  match O.synthesize s.originalQuestion s.knowledge with
  | .ok report => ([ev, answerEvent s "Research complete (max depth reached)" report], 1)
  | .error e => ([ev, errorEvent e], 1)

/-- The `while (state.step < MAX_STEPS && state.failedAttempts <
MAX_FAILED_ATTEMPTS)` loop.  The fuel equals `MAX_STEPS - state.step`
throughout (every iteration increments `step`), so the `fuel = 0` case
coincides with the first conjunct of the loop condition being false. -/
def runLoopAux (O : Oracles) : Nat → AgentState → List String → RunOut
  | 0, s, avail => ⟨s, avail, (postLoop O s).1, [], [], (postLoop O s).2, 0⟩
  | fuel + 1, s, avail =>
    if s.step < MAX_STEPS ∧ s.failedAttempts < MAX_FAILED_ATTEMPTS then
      let out := runStep O s avail
      match out.result with
      | .next =>
        let rest := runLoopAux O fuel out.state out.avail
        ⟨rest.state, rest.avail, out.events ++ rest.events,
          out.searchCalls ++ rest.searchCalls, out.extractCalls ++ rest.extractCalls,
          out.synthCalls + rest.synthCalls, rest.iterations + 1⟩
      | .answered =>
        ⟨out.state, out.avail, out.events, out.searchCalls, out.extractCalls, out.synthCalls, 1⟩
      | .thrown e =>
        ⟨out.state, out.avail, out.events ++ [errorEvent e],
          out.searchCalls, out.extractCalls, out.synthCalls, 1⟩
    else ⟨s, avail, (postLoop O s).1, [], [], (postLoop O s).2, 0⟩

/-- One full run on a topic: initial state, the initial `thinking`
event (source lines 371-376), the loop, and the terminal path. -/
def runAgent (O : Oracles) (topic : String) : RunOut :=
  let r := runLoopAux O MAX_STEPS (initialState topic) []
  { r with events := startEvent topic :: r.events }

/-- Last emitted event of a run. -/
def lastEvent (r : RunOut) : Option StreamEvent := r.events.getLast?

/-- The `knowledgeItems` statistic carried by the final event, when the
final event is an `answer` event. -/
def finalKnowledgeStat (r : RunOut) : Option Nat :=
  match lastEvent r with
  | some e =>
    match e.data with
    | some (EventData.answerInfo _ st) => some st.knowledgeItems
    | _ => none
  | none => none

/-! ## Concrete decisions and oracles used in scenarios -/

def aReflect (q : String) : AgentAction :=
  { action := "reflect", reasoning := "r", gapQuestions := some [⟨q, 3, "g"⟩] }

def aSearch (q : String) : AgentAction :=
  { action := "search", reasoning := "r", searchQueries := some [q] }

def aAnswer : AgentAction := { action := "answer", reasoning := "r" }

/-- Oracles whose policy reflects on "B" then "C", searches three times,
then keeps proposing a premature answer.  Searches return nothing. -/
def OCex1 : Oracles :=
  { search := fun _ => []
    extract := fun _ => none
    policy := fun s _ => .ok (match s.step with
      | 1 => aReflect "B"
      | 2 => aReflect "C"
      | 3 => aSearch "q3"
      | 4 => aSearch "q4"
      | 5 => aSearch "q5"
      | _ => aAnswer)
    synthesize := fun _ _ => .ok "r" }

/-- Policy of the budget-exhaustion scenario: alternate search and
reflect forever. -/
def scenAction (s : AgentState) : AgentAction :=
  if s.step % 2 = 1 then aSearch "X" else aReflect "G"

/-- Oracles of the budget-exhaustion scenario: empty searches, absent
extractions, alternating search/reflect policy, succeeding synthesis. -/
def OScen : Oracles :=
  { search := fun _ => []
    extract := fun _ => none
    policy := fun s _ => .ok (scenAction s)
    synthesize := fun _ _ => .ok "degraded report" }

/-- Oracles whose policy collaborator always throws (the LLM gateway
returning a non-ok response makes `callLLM` throw, and `getAgentAction`
only catches JSON parse errors, not the fetch error). -/
def OThrow : Oracles :=
  { search := fun _ => []
    extract := fun _ => none
    policy := fun _ _ => .error "LLM API failed: 500"
    synthesize := fun _ _ => .ok "r" }

/-- Inert oracles for exercising oracle-free code paths. -/
def O0 : Oracles :=
  { search := fun _ => []
    extract := fun _ => none
    policy := fun _ _ => .error "unused"
    synthesize := fun _ _ => .error "unused" }

/-- A reflect decision proposing gaps A and B (the C5 scenario). -/
def aReflectAB : AgentAction :=
  { action := "reflect", reasoning := "r"
    gapQuestions := some [⟨"A", 3, "r1"⟩, ⟨"B", 1, "r2"⟩] }

/-- Oracles whose policy always reflects with gaps A and B. -/
def OReflect : Oracles :=
  { search := fun _ => []
    extract := fun _ => none
    policy := fun _ _ => .ok aReflectAB
    synthesize := fun _ _ => .ok "r" }

/-- Oracles whose policy always proposes an answer. -/
def OAnswer : Oracles :=
  { search := fun _ => []
    extract := fun _ => none
    policy := fun _ _ => .ok aAnswer
    synthesize := fun _ _ => .ok "r" }

/-! ## Specification lemmas for the per-iteration helpers -/

theorem searchStep_spec (sr : String → List SearchResult) (s : AgentState)
    (avail : List String) (q : String) :
    (searchStep sr s avail q).1.searchQueries = s.searchQueries ++ [q] ∧
    (searchStep sr s avail q).1.step = s.step ∧
    (searchStep sr s avail q).1.gaps = s.gaps ∧
    (searchStep sr s avail q).1.visitedUrls = s.visitedUrls ∧
    (searchStep sr s avail q).1.failedAttempts = s.failedAttempts ∧
    (searchStep sr s avail q).1.currentQuestion = s.currentQuestion ∧
    (searchStep sr s avail q).1.originalQuestion = s.originalQuestion ∧
    (∀ k ∈ (searchStep sr s avail q).1.knowledge,
      k ∈ s.knowledge ∨ (k.question = q ∧ k.type = KnowledgeType.search)) ∧
    (∀ e ∈ (searchStep sr s avail q).2.2,
      e.type = EventType.knowledge ∧ e.step = some s.step) := by
  by_cases hr : (sr q).length > 0 <;>
    simp_all [searchStep, searchItem, searchKnowledgeEvent] <;>
    intro k hk <;> rcases hk with hk | hk <;> simp_all

theorem readStep_spec (ex : String → Option String) (s : AgentState) (u : String) :
    (readStep ex s u).1.visitedUrls = s.visitedUrls ++ [u] ∧
    (readStep ex s u).1.step = s.step ∧
    (readStep ex s u).1.gaps = s.gaps ∧
    (readStep ex s u).1.searchQueries = s.searchQueries ∧
    (readStep ex s u).1.failedAttempts = s.failedAttempts ∧
    (readStep ex s u).1.currentQuestion = s.currentQuestion ∧
    (readStep ex s u).1.originalQuestion = s.originalQuestion ∧
    (∀ k ∈ (readStep ex s u).1.knowledge,
      k ∈ s.knowledge ∨
        (k.answer ≠ "" ∧ ex u = some k.answer ∧ k.sources = [u]
          ∧ k.type = KnowledgeType.url)) ∧
    (∀ e ∈ (readStep ex s u).2,
      e.type = EventType.knowledge ∧ e.step = some s.step) := by
  rcases hex : ex u with _ | content
  · simp_all [readStep]
  · by_cases hc : content = "" <;>
      simp_all [readStep, urlItem, urlKnowledgeEvent] <;>
      intro k hk <;> rcases hk with hk | hk <;> simp_all

/-! ## Specification lemmas for the action executors -/

theorem processSearch_spec (sr : String → List SearchResult) (qs : List String) :
    ∀ (s : AgentState) (avail : List String),
      (processSearch sr s avail qs).state.searchQueries
          = s.searchQueries ++ (processSearch sr s avail qs).calls ∧
      (∀ x ∈ (processSearch sr s avail qs).calls, x ∉ s.searchQueries) ∧
      (processSearch sr s avail qs).calls.Nodup ∧
      (∀ k ∈ (processSearch sr s avail qs).state.knowledge,
        k ∈ s.knowledge ∨ (k.question ∈ (processSearch sr s avail qs).calls
          ∧ k.type = KnowledgeType.search)) ∧
      (processSearch sr s avail qs).state.step = s.step ∧
      (processSearch sr s avail qs).state.gaps = s.gaps ∧
      (processSearch sr s avail qs).state.visitedUrls = s.visitedUrls ∧
      (processSearch sr s avail qs).state.failedAttempts = s.failedAttempts ∧
      (processSearch sr s avail qs).state.currentQuestion = s.currentQuestion ∧
      (processSearch sr s avail qs).state.originalQuestion = s.originalQuestion ∧
      (∀ e ∈ (processSearch sr s avail qs).events,
        e.type = EventType.knowledge ∧ e.step = some s.step) := by
  induction qs with
  | nil => intro s avail; simp [processSearch]
  | cons q qs ih =>
    intro s avail
    by_cases hq : q ∈ s.searchQueries
    · simpa [processSearch, hq] using ih s avail
    · obtain ⟨t1, t2, t3, t4, t5, t6, t7, t8, t9⟩ := searchStep_spec sr s avail q
      obtain ⟨i1, i2, i3, i4, i5, i6, i7, i8, i9, i10, i11⟩ :=
        ih (searchStep sr s avail q).1 (searchStep sr s avail q).2.1
      have hred : processSearch sr s avail (q :: qs) =
          ⟨(processSearch sr (searchStep sr s avail q).1 (searchStep sr s avail q).2.1 qs).state,
            (processSearch sr (searchStep sr s avail q).1 (searchStep sr s avail q).2.1 qs).avail,
            (searchStep sr s avail q).2.2
              ++ (processSearch sr (searchStep sr s avail q).1
                    (searchStep sr s avail q).2.1 qs).events,
            q :: (processSearch sr (searchStep sr s avail q).1
                    (searchStep sr s avail q).2.1 qs).calls⟩ := by
        simp [processSearch, hq]
      rw [hred]
      refine ⟨?_, ?_, ?_, ?_, ?_, ?_, ?_, ?_, ?_, ?_, ?_⟩
      · rw [i1, t1]; simp [List.append_assoc]
      · intro x hx
        rcases List.mem_cons.mp hx with rfl | hx
        · exact hq
        · have := i2 x hx
          rw [t1] at this
          simp only [List.mem_append] at this
          exact fun hm => this (Or.inl hm)
      · refine List.nodup_cons.mpr ⟨?_, i3⟩
        intro hmem
        have := i2 q hmem
        rw [t1] at this
        simp at this
      · intro k hk
        rcases i4 k hk with hk2 | ⟨hk2, hk3⟩
        · rcases t8 k hk2 with hk3 | ⟨hk3, hk4⟩
          · exact Or.inl hk3
          · exact Or.inr ⟨by simp [hk3], hk4⟩
        · exact Or.inr ⟨List.mem_cons_of_mem _ hk2, hk3⟩
      · rw [i5, t2]
      · rw [i6, t3]
      · rw [i7, t4]
      · rw [i8, t5]
      · rw [i9, t6]
      · rw [i10, t7]
      · intro e he
        rcases List.mem_append.mp he with he | he
        · exact t9 e he
        · have := i11 e he
          rw [t2] at this
          exact this

theorem processRead_spec (ex : String → Option String) (us : List String) :
    ∀ (s : AgentState),
      (processRead ex s us).state.visitedUrls
          = s.visitedUrls ++ (processRead ex s us).calls ∧
      (∀ u ∈ (processRead ex s us).calls, u ∉ s.visitedUrls) ∧
      (processRead ex s us).calls.Nodup ∧
      (processRead ex s us).calls.Sublist us ∧
      (∀ k ∈ (processRead ex s us).state.knowledge,
        k ∈ s.knowledge ∨ (k.answer ≠ ""
          ∧ (∃ u, ex u = some k.answer ∧ k.sources = [u])
          ∧ k.type = KnowledgeType.url)) ∧
      (processRead ex s us).state.step = s.step ∧
      (processRead ex s us).state.gaps = s.gaps ∧
      (processRead ex s us).state.searchQueries = s.searchQueries ∧
      (processRead ex s us).state.failedAttempts = s.failedAttempts ∧
      (processRead ex s us).state.currentQuestion = s.currentQuestion ∧
      (processRead ex s us).state.originalQuestion = s.originalQuestion ∧
      (∀ e ∈ (processRead ex s us).events,
        (e.type = EventType.reading ∨ e.type = EventType.knowledge)
          ∧ e.step = some s.step) := by
  induction us with
  | nil =>
    intro s
    simp only [processRead, List.append_nil, List.not_mem_nil, false_implies, implies_true,
      List.nodup_nil, List.nil_sublist, List.Sublist.refl, true_and, and_true]
    exact fun k hk => Or.inl hk
  | cons u us ih =>
    intro s
    by_cases hu : u ∈ s.visitedUrls
    · obtain ⟨i1, i2, i3, i4, i5, i6, i7, i8, i9, i10, i11, i12⟩ := ih s
      rw [show processRead ex s (u :: us) = processRead ex s us by simp [processRead, hu]]
      exact ⟨i1, i2, i3, i4.cons u, i5, i6, i7, i8, i9, i10, i11, i12⟩
    · obtain ⟨t1, t2, t3, t4, t5, t6, t7, t8, t9⟩ := readStep_spec ex s u
      obtain ⟨i1, i2, i3, i4, i5, i6, i7, i8, i9, i10, i11, i12⟩ := ih (readStep ex s u).1
      have hred : processRead ex s (u :: us) =
          ⟨(processRead ex (readStep ex s u).1 us).state,
            readingUrlEvent s.step u
              :: ((readStep ex s u).2 ++ (processRead ex (readStep ex s u).1 us).events),
            u :: (processRead ex (readStep ex s u).1 us).calls⟩ := by
        simp [processRead, hu]
      rw [hred]
      refine ⟨?_, ?_, ?_, ?_, ?_, ?_, ?_, ?_, ?_, ?_, ?_, ?_⟩
      · rw [i1, t1]; simp [List.append_assoc]
      · intro x hx
        rcases List.mem_cons.mp hx with rfl | hx
        · exact hu
        · have := i2 x hx
          rw [t1] at this
          simp only [List.mem_append] at this
          exact fun hm => this (Or.inl hm)
      · refine List.nodup_cons.mpr ⟨?_, i3⟩
        intro hmem
        have := i2 u hmem
        rw [t1] at this
        simp at this
      · exact i4.cons₂ u
      · intro k hk
        rcases i5 k hk with hk2 | hk2
        · rcases t8 k hk2 with h | ⟨h1, h2, h3, h4⟩
          · exact Or.inl h
          · exact Or.inr ⟨h1, ⟨u, h2, h3⟩, h4⟩
        · exact Or.inr hk2
      · rw [i6, t2]
      · rw [i7, t3]
      · rw [i8, t4]
      · rw [i9, t5]
      · rw [i10, t6]
      · rw [i11, t7]
      · intro e he
        rcases List.mem_cons.mp he with rfl | he
        · simp [readingUrlEvent]
        · rcases List.mem_append.mp he with he | he
          · have := t9 e he
            exact ⟨Or.inr this.1, this.2⟩
          · have := i12 e he
            rw [t2] at this
            exact this

theorem processReflect_spec (gs : List GapQuestion) :
    ∀ (s : AgentState),
      (processReflect s gs).1.gaps = s.gaps ++ gs ∧
      (processReflect s gs).1.knowledge = s.knowledge ∧
      (processReflect s gs).1.visitedUrls = s.visitedUrls ∧
      (processReflect s gs).1.searchQueries = s.searchQueries ∧
      (processReflect s gs).1.step = s.step ∧
      (processReflect s gs).1.failedAttempts = s.failedAttempts ∧
      (processReflect s gs).1.currentQuestion = s.currentQuestion ∧
      (processReflect s gs).1.originalQuestion = s.originalQuestion ∧
      (∀ e ∈ (processReflect s gs).2,
        e.type = EventType.gap ∧ e.step = some s.step) := by
  induction gs with
  | nil => intro s; simp [processReflect]
  | cons g gs ih =>
    intro s
    obtain ⟨i1, i2, i3, i4, i5, i6, i7, i8, i9⟩ := ih { s with gaps := s.gaps ++ [g] }
    have hred : processReflect s (g :: gs) =
        ((processReflect { s with gaps := s.gaps ++ [g] } gs).1,
          gapEvent s.step g :: (processReflect { s with gaps := s.gaps ++ [g] } gs).2) := by
      simp [processReflect]
    rw [hred]
    refine ⟨?_, i2, i3, i4, i5, i6, i7, i8, ?_⟩
    · rw [i1]; simp
    · intro e he
      rcases List.mem_cons.mp he with rfl | he
      · simp [gapEvent]
      · exact i9 e he

/-! ## Generic list helper -/

theorem getLast?_append_some {α : Type _} {l2 : List α} {e : α}
    (h : l2.getLast? = some e) : ∀ l1 : List α, (l1 ++ l2).getLast? = some e := by
  intro l1
  induction l1 with
  | nil => simpa using h
  | cons x l1 ih =>
    rw [List.cons_append]
    rcases hl : l1 ++ l2 with _ | ⟨z, t⟩
    · rcases l2 with _ | _
      · simp at h
      · simp at hl
    · rw [hl] at ih
      rw [List.getLast?_cons_cons, ih]

/-! ## Specification of the dispatch -/

theorem dispatch_spec (O : Oracles) (a : AgentAction) (s : AgentState) (avail : List String) :
    (dispatchAction O a s avail).state.step = s.step ∧
    (dispatchAction O a s avail).state.originalQuestion = s.originalQuestion ∧
    (dispatchAction O a s avail).state.searchQueries
        = s.searchQueries ++ (dispatchAction O a s avail).searchCalls ∧
    (∀ q ∈ (dispatchAction O a s avail).searchCalls, q ∉ s.searchQueries) ∧
    (dispatchAction O a s avail).searchCalls.Nodup ∧
    (dispatchAction O a s avail).state.visitedUrls
        = s.visitedUrls ++ (dispatchAction O a s avail).extractCalls ∧
    (∀ u ∈ (dispatchAction O a s avail).extractCalls, u ∉ s.visitedUrls) ∧
    (dispatchAction O a s avail).extractCalls.Nodup ∧
    (dispatchAction O a s avail).state.failedAttempts ≤ s.failedAttempts + 1 ∧
    (dispatchAction O a s avail).synthCalls ≤ 1 ∧
    ((dispatchAction O a s avail).result = DispatchKind.next
      → (dispatchAction O a s avail).synthCalls = 0) ∧
    ((dispatchAction O a s avail).result ≠ DispatchKind.next
      → (dispatchAction O a s avail).synthCalls = 1) ∧
    (∀ e ∈ (dispatchAction O a s avail).events, e.step = some s.step) ∧
    ((dispatchAction O a s avail).result = DispatchKind.answered
      → ∃ e, (dispatchAction O a s avail).events.getLast? = some e
          ∧ e.type = EventType.answer) := by
  by_cases h1 : a.action = "search"
  · rcases ha : a.searchQueries with _ | qs
    · simp [dispatchAction, h1, ha]
    · obtain ⟨p1, p2, p3, p4, p5, p6, p7, p8, p9, p10, p11⟩ :=
        processSearch_spec O.search qs s avail
      simp only [dispatchAction, if_pos h1, ha]
      refine ⟨p5, p10, p1, p2, p3, by rw [p7]; simp, by simp, by simp,
        by rw [p8]; exact Nat.le_succ _, by simp, by simp, by simp, ?_, by simp⟩
      intro e he
      rcases List.mem_cons.mp he with rfl | he
      · simp [searchingEvent]
      · exact (p11 e he).2
  · by_cases h2 : a.action = "read"
    · rcases ha : a.urlsToRead with _ | urls
      · simp [dispatchAction, h1, h2, ha]
      · obtain ⟨p1, p2, p3, p4, p5, p6, p7, p8, p9, p10, p11, p12⟩ :=
          processRead_spec O.extract (urls.take MAX_URLS_PER_STEP) s
        simp only [dispatchAction, if_neg h1, if_pos h2, ha]
        refine ⟨p6, p11, by rw [p8]; simp, by simp, by simp, p1, p2, p3,
          by rw [p9]; exact Nat.le_succ _, by simp, by simp, by simp, ?_, by simp⟩
        intro e he
        rcases List.mem_cons.mp he with rfl | he
        · simp [readingSummaryEvent]
        · exact (p12 e he).2
    · by_cases h3 : a.action = "reflect"
      · rcases ha : a.gapQuestions with _ | gs
        · simp [dispatchAction, h1, h2, h3, ha]
        · obtain ⟨p1, p2, p3, p4, p5, p6, p7, p8, p9⟩ := processReflect_spec gs s
          simp only [dispatchAction, if_neg h1, if_neg h2, if_pos h3, ha]
          by_cases hany : (processReflect s gs).1.gaps.any
              (fun g => g.question == s.originalQuestion) = true
          · simp only [if_pos hany]
            refine ⟨p5, p8, by rw [p4]; simp, by simp, by simp, by rw [p3]; simp, by simp,
              by simp, by rw [p6]; exact Nat.le_succ _, by simp, by simp, by simp, ?_,
              by simp⟩
            intro e he
            rcases List.mem_cons.mp he with rfl | he
            · simp [reflectingEvent]
            · exact (p9 e he).2
          · simp only [if_neg hany]
            refine ⟨p5, p8, by rw [p4]; simp, by simp, by simp, by rw [p3]; simp, by simp,
              by simp, by rw [p6]; exact Nat.le_succ _, by simp, by simp, by simp, ?_,
              by simp⟩
            intro e he
            rcases List.mem_cons.mp he with rfl | he
            · simp [reflectingEvent]
            · exact (p9 e he).2
      · by_cases h4 : a.action = "answer"
        · by_cases hk : s.knowledge.length < 3
          · simp [dispatchAction, h1, h2, h3, h4, hk]
          · rcases hsyn : O.synthesize s.originalQuestion s.knowledge with e | report
            · simp only [dispatchAction, if_neg h1, if_neg h2, if_neg h3, if_pos h4,
                if_neg hk, hsyn]
              refine ⟨by simp, by simp, by simp, by simp, by simp, by simp, by simp,
                by simp, by simp, by simp, by simp, by simp, ?_, by simp⟩
              intro ev hev
              simp only [List.mem_singleton] at hev
              subst hev
              rfl
            · simp only [dispatchAction, if_neg h1, if_neg h2, if_neg h3, if_pos h4,
                if_neg hk, hsyn]
              refine ⟨by simp, by simp, by simp, by simp, by simp, by simp, by simp,
                by simp, by simp, by simp, by simp, by simp, ?_, ?_⟩
              · intro ev hev
                rcases List.mem_cons.mp hev with rfl | hev
                · rfl
                · rcases List.mem_singleton.mp hev with rfl
                  simp [answerEvent]
              · intro _
                exact ⟨answerEvent s "Research complete!" report, by simp, rfl⟩
        · simp [dispatchAction, h1, h2, h3, h4]

/-! ## Specification of one loop iteration -/

theorem gapDequeue_spec (s : AgentState) :
    (gapDequeue s).1.originalQuestion = s.originalQuestion ∧
    (gapDequeue s).1.knowledge = s.knowledge ∧
    (gapDequeue s).1.visitedUrls = s.visitedUrls ∧
    (gapDequeue s).1.searchQueries = s.searchQueries ∧
    (gapDequeue s).1.step = s.step ∧
    (gapDequeue s).1.failedAttempts = s.failedAttempts ∧
    (∀ e ∈ (gapDequeue s).2, e.type = EventType.thinking ∧ e.step = some s.step) := by
  rcases hg : s.gaps with _ | ⟨g, rest⟩
  · simp [gapDequeue, hg]
  · by_cases hstep : s.step > 2 <;> simp [gapDequeue, hg, hstep]

theorem runStep_spec (O : Oracles) (s : AgentState) (avail : List String) :
    (runStep O s avail).state.step = s.step + 1 ∧
    (runStep O s avail).state.originalQuestion = s.originalQuestion ∧
    (runStep O s avail).state.searchQueries
        = s.searchQueries ++ (runStep O s avail).searchCalls ∧
    (∀ q ∈ (runStep O s avail).searchCalls, q ∉ s.searchQueries) ∧
    (runStep O s avail).searchCalls.Nodup ∧
    (runStep O s avail).state.visitedUrls
        = s.visitedUrls ++ (runStep O s avail).extractCalls ∧
    (∀ u ∈ (runStep O s avail).extractCalls, u ∉ s.visitedUrls) ∧
    (runStep O s avail).extractCalls.Nodup ∧
    (runStep O s avail).state.failedAttempts ≤ s.failedAttempts + 1 ∧
    (runStep O s avail).synthCalls ≤ 1 ∧
    ((runStep O s avail).result = DispatchKind.next → (runStep O s avail).synthCalls = 0) ∧
    ((runStep O s avail).result = DispatchKind.answered → (runStep O s avail).synthCalls = 1) ∧
    (policyTotal O → (runStep O s avail).result ≠ DispatchKind.next
        → (runStep O s avail).synthCalls = 1) ∧
    (∀ e ∈ (runStep O s avail).events, e.step = some (s.step + 1)) ∧
    (runStep O s avail).events ≠ [] ∧
    ((runStep O s avail).result = DispatchKind.answered
      → ∃ e, (runStep O s avail).events.getLast? = some e ∧ e.type = EventType.answer) := by
  obtain ⟨g1, g2, g3, g4, g5, g6, g7⟩ := gapDequeue_spec (incStep s)
  have hstep1 : (gapDequeue (incStep s)).1.step = s.step + 1 := by
    rw [g5]; rfl
  have horig1 : (gapDequeue (incStep s)).1.originalQuestion = s.originalQuestion := by
    rw [g1]; rfl
  have hsq1 : (gapDequeue (incStep s)).1.searchQueries = s.searchQueries := by
    rw [g4]; rfl
  have hvu1 : (gapDequeue (incStep s)).1.visitedUrls = s.visitedUrls := by
    rw [g3]; rfl
  have hfa1 : (gapDequeue (incStep s)).1.failedAttempts = s.failedAttempts := by
    rw [g6]; rfl
  rcases hpol : O.policy (gapDequeue (incStep s)).1
      (candidateUrls (gapDequeue (incStep s)).1 avail) with e | a
  · have hred : runStep O s avail =
        ⟨(gapDequeue (incStep s)).1, avail,
          progressEvent (incStep s) :: (gapDequeue (incStep s)).2, [], [], 0,
          DispatchKind.thrown e⟩ := by
      simp [runStep, hpol]
    rw [hred]
    refine ⟨hstep1, horig1, by simpa using hsq1, by simp, by simp, by simpa using hvu1,
      by simp, by simp, by rw [hfa1]; exact Nat.le_succ _, by simp, by simp, by simp,
      ?_, ?_, by simp, by simp⟩
    · intro hptot _
      obtain ⟨a, ha⟩ := hptot (gapDequeue (incStep s)).1
        (candidateUrls (gapDequeue (incStep s)).1 avail)
      rw [hpol] at ha
      cases ha
    · intro ev hev
      rcases List.mem_cons.mp hev with rfl | hev
      · simp [progressEvent, incStep]
      · have := (g7 ev hev).2
        rw [this]; rfl
  · obtain ⟨d1, d2, d3, d4, d5, d6, d7, d8, d9, d10, d11, d12, d13, d14⟩ :=
      dispatch_spec O a (gapDequeue (incStep s)).1 avail
    have hred : runStep O s avail =
        ⟨(dispatchAction O a (gapDequeue (incStep s)).1 avail).state,
          (dispatchAction O a (gapDequeue (incStep s)).1 avail).avail,
          progressEvent (incStep s)
            :: ((gapDequeue (incStep s)).2
              ++ ({ type := .thinking, message := a.reasoning,
                    step := some (gapDequeue (incStep s)).1.step,
                    data := some (.actionTag a.action) } : StreamEvent)
                :: (dispatchAction O a (gapDequeue (incStep s)).1 avail).events),
          (dispatchAction O a (gapDequeue (incStep s)).1 avail).searchCalls,
          (dispatchAction O a (gapDequeue (incStep s)).1 avail).extractCalls,
          (dispatchAction O a (gapDequeue (incStep s)).1 avail).synthCalls,
          (dispatchAction O a (gapDequeue (incStep s)).1 avail).result⟩ := by
      simp [runStep, hpol]
    rw [hred]
    refine ⟨d1.trans hstep1, d2.trans horig1, by rw [d3, hsq1],
      fun q hq => by rw [← hsq1]; exact d4 q hq, d5, by rw [d6, hvu1],
      fun u hu => by rw [← hvu1]; exact d7 u hu, d8,
      le_trans d9 (by rw [hfa1]), d10, d11,
      fun hr => d12 (by rw [hr]; simp),
      fun _ hr => d12 hr, ?_, by simp, ?_⟩
    · intro e he
      rcases List.mem_cons.mp he with rfl | he
      · simp [progressEvent, incStep]
      · rcases List.mem_append.mp he with he | he
        · exact (g7 e he).2
        · rcases List.mem_cons.mp he with rfl | he
          · simpa using congrArg some hstep1
          · have := d13 e he
            rw [hstep1] at this
            exact this
    · intro hr
      obtain ⟨e, he, het⟩ := d14 hr
      refine ⟨e, ?_, het⟩
      have h1 := getLast?_append_some he
        [({ type := .thinking, message := a.reasoning,
            step := some (gapDequeue (incStep s)).1.step,
            data := some (.actionTag a.action) } : StreamEvent)]
      have h2 := getLast?_append_some h1 (progressEvent (incStep s) :: (gapDequeue (incStep s)).2)
      simpa using h2

/-! ## More list helpers -/

theorem getLast?_pair {α : Type _} (a b : α) : [a, b].getLast? = some b := rfl

theorem pairwise_le_of_all_eq {l : List Nat} {c : Nat} (h : ∀ x ∈ l, x = c) :
    l.Pairwise (· ≤ ·) := by
  induction l with
  | nil => simp
  | cons a l ih =>
    refine List.Pairwise.cons ?_ (ih fun x hx => h x (List.mem_cons_of_mem _ hx))
    intro b hb
    rw [h a (List.mem_cons_self a l), h b (List.mem_cons_of_mem _ hb)]

/-! ## Specification of the terminal path -/

theorem postLoop_spec (O : Oracles) (s : AgentState) :
    (∀ x ∈ (postLoop O s).1.filterMap (fun e => e.step), x = s.step) ∧
    (postLoop O s).2 = 1 ∧
    (∃ e, (postLoop O s).1.getLast? = some e
      ∧ (e.type = EventType.answer ∨ e.type = EventType.error)) := by
  rcases hs : O.synthesize s.originalQuestion s.knowledge with er | r
  · refine ⟨?_, by simp [postLoop, hs], ⟨errorEvent er, ?_, Or.inr rfl⟩⟩
    · intro x hx
      simp only [postLoop, hs] at hx
      simpa [errorEvent] using hx
    · simp only [postLoop, hs]
      exact getLast?_pair _ _
  · refine ⟨?_, by simp [postLoop, hs],
      ⟨answerEvent s "Research complete (max depth reached)" r, ?_, Or.inl rfl⟩⟩
    · intro x hx
      simp only [postLoop, hs] at hx
      simpa [answerEvent] using hx
    · simp only [postLoop, hs]
      exact getLast?_pair _ _

/-! ## Loop invariants -/

theorem runLoopAux_iterations (O : Oracles) (fuel : Nat) :
    ∀ (s : AgentState) (avail : List String),
      (runLoopAux O fuel s avail).iterations ≤ fuel := by
  induction fuel with
  | zero => intro s avail; simp [runLoopAux]
  | succ fuel ih =>
    intro s avail
    by_cases hc : s.step < MAX_STEPS ∧ s.failedAttempts < MAX_FAILED_ATTEMPTS
    · simp only [runLoopAux, if_pos hc]
      cases hres : (runStep O s avail).result
      · simp only [hres]
        exact Nat.succ_le_succ (ih _ _)
      · simp only [hres]
        exact Nat.succ_le_succ (Nat.zero_le _)
      · simp only [hres]
        exact Nat.succ_le_succ (Nat.zero_le _)
    · simp [runLoopAux, if_neg hc]

theorem runLoopAux_failed (O : Oracles) (fuel : Nat) :
    ∀ (s : AgentState) (avail : List String),
      s.failedAttempts ≤ MAX_FAILED_ATTEMPTS →
      (runLoopAux O fuel s avail).state.failedAttempts ≤ MAX_FAILED_ATTEMPTS := by
  induction fuel with
  | zero => intro s avail h; simpa [runLoopAux] using h
  | succ fuel ih =>
    intro s avail h
    obtain ⟨-, -, -, -, -, -, -, -, r9, -⟩ := runStep_spec O s avail
    by_cases hc : s.step < MAX_STEPS ∧ s.failedAttempts < MAX_FAILED_ATTEMPTS
    · have hout : (runStep O s avail).state.failedAttempts ≤ MAX_FAILED_ATTEMPTS :=
        le_trans r9 hc.2
      simp only [runLoopAux, if_pos hc]
      cases hres : (runStep O s avail).result
      · simp only [hres]
        exact ih _ _ hout
      · simpa only [hres] using hout
      · simpa only [hres] using hout
    · simpa [runLoopAux, if_neg hc] using h

theorem runLoopAux_searchNodup (O : Oracles) (fuel : Nat) :
    ∀ (s : AgentState) (avail : List String),
      s.searchQueries.Nodup →
      (s.searchQueries ++ (runLoopAux O fuel s avail).searchCalls).Nodup := by
  induction fuel with
  | zero => intro s avail h; simpa [runLoopAux] using h
  | succ fuel ih =>
    intro s avail h
    obtain ⟨-, -, r3, r4, r5, -⟩ := runStep_spec O s avail
    have hdisj : s.searchQueries.Disjoint (runStep O s avail).searchCalls := by
      intro x hx1 hx2
      exact r4 x hx2 hx1
    have happ : (s.searchQueries ++ (runStep O s avail).searchCalls).Nodup :=
      h.append r5 hdisj
    by_cases hc : s.step < MAX_STEPS ∧ s.failedAttempts < MAX_FAILED_ATTEMPTS
    · simp only [runLoopAux, if_pos hc]
      cases hres : (runStep O s avail).result
      · simp only [hres]
        have := ih (runStep O s avail).state (runStep O s avail).avail (by rw [r3]; exact happ)
        rw [r3] at this
        simpa [List.append_assoc] using this
      · simpa only [hres] using happ
      · simpa only [hres] using happ
    · simpa [runLoopAux, if_neg hc] using h

theorem runLoopAux_visitNodup (O : Oracles) (fuel : Nat) :
    ∀ (s : AgentState) (avail : List String),
      s.visitedUrls.Nodup →
      (s.visitedUrls ++ (runLoopAux O fuel s avail).extractCalls).Nodup := by
  induction fuel with
  | zero => intro s avail h; simpa [runLoopAux] using h
  | succ fuel ih =>
    intro s avail h
    obtain ⟨-, -, -, -, -, r6, r7, r8, -⟩ := runStep_spec O s avail
    have hdisj : s.visitedUrls.Disjoint (runStep O s avail).extractCalls := by
      intro x hx1 hx2
      exact r7 x hx2 hx1
    have happ : (s.visitedUrls ++ (runStep O s avail).extractCalls).Nodup :=
      h.append r8 hdisj
    by_cases hc : s.step < MAX_STEPS ∧ s.failedAttempts < MAX_FAILED_ATTEMPTS
    · simp only [runLoopAux, if_pos hc]
      cases hres : (runStep O s avail).result
      · simp only [hres]
        have := ih (runStep O s avail).state (runStep O s avail).avail (by rw [r6]; exact happ)
        rw [r6] at this
        simpa [List.append_assoc] using this
      · simpa only [hres] using happ
      · simpa only [hres] using happ
    · simpa [runLoopAux, if_neg hc] using h

theorem runLoopAux_synth (O : Oracles) (fuel : Nat) :
    ∀ (s : AgentState) (avail : List String),
      (runLoopAux O fuel s avail).synthCalls ≤ 1 ∧
      (policyTotal O → (runLoopAux O fuel s avail).synthCalls = 1) := by
  induction fuel with
  | zero =>
    intro s avail
    have := (postLoop_spec O s).2.1
    simp only [runLoopAux]
    omega
  | succ fuel ih =>
    intro s avail
    obtain ⟨-, -, -, -, -, -, -, -, -, r10, r11, r12, r13, -⟩ := runStep_spec O s avail
    by_cases hc : s.step < MAX_STEPS ∧ s.failedAttempts < MAX_FAILED_ATTEMPTS
    · simp only [runLoopAux, if_pos hc]
      cases hres : (runStep O s avail).result
      · simp only [hres]
        have hz := r11 hres
        obtain ⟨ihl, ihr⟩ := ih (runStep O s avail).state (runStep O s avail).avail
        constructor
        · omega
        · intro hp
          have := ihr hp
          omega
      · simp only [hres]
        have := r12 hres
        exact ⟨by omega, fun _ => this⟩
      · simp only [hres]
        refine ⟨r10, fun hp => r13 hp (by rw [hres]; simp)⟩
    · have := (postLoop_spec O s).2.1
      simp only [runLoopAux, if_neg hc]
      omega

theorem runLoopAux_last (O : Oracles) (fuel : Nat) :
    ∀ (s : AgentState) (avail : List String),
      ∃ e, (runLoopAux O fuel s avail).events.getLast? = some e
        ∧ (e.type = EventType.answer ∨ e.type = EventType.error) := by
  induction fuel with
  | zero =>
    intro s avail
    simpa only [runLoopAux] using (postLoop_spec O s).2.2
  | succ fuel ih =>
    intro s avail
    by_cases hc : s.step < MAX_STEPS ∧ s.failedAttempts < MAX_FAILED_ATTEMPTS
    · simp only [runLoopAux, if_pos hc]
      rcases hres : (runStep O s avail).result with _ | _ | msg
      · obtain ⟨e, he, ht⟩ := ih (runStep O s avail).state (runStep O s avail).avail
        exact ⟨e, getLast?_append_some he _, ht⟩
      · obtain ⟨-, -, -, -, -, -, -, -, -, -, -, -, -, -, -, r16⟩ := runStep_spec O s avail
        obtain ⟨e, he, ht⟩ := r16 hres
        exact ⟨e, he, Or.inl ht⟩
      · exact ⟨errorEvent msg,
          getLast?_append_some (show ([errorEvent msg]).getLast? = some (errorEvent msg)
            from rfl) _, Or.inr rfl⟩
    · simp only [runLoopAux, if_neg hc]
      exact (postLoop_spec O s).2.2

theorem runLoopAux_sorted (O : Oracles) (fuel : Nat) :
    ∀ (s : AgentState) (avail : List String),
      (∀ x ∈ (runLoopAux O fuel s avail).events.filterMap (fun e => e.step), s.step ≤ x) ∧
      ((runLoopAux O fuel s avail).events.filterMap (fun e => e.step)).Pairwise (· ≤ ·) := by
  induction fuel with
  | zero =>
    intro s avail
    simp only [runLoopAux]
    exact ⟨fun x hx => le_of_eq ((postLoop_spec O s).1 x hx).symm,
      pairwise_le_of_all_eq (postLoop_spec O s).1⟩
  | succ fuel ih =>
    intro s avail
    obtain ⟨r1, -, -, -, -, -, -, -, -, -, -, -, -, r14, -⟩ := runStep_spec O s avail
    have hstepev : ∀ x ∈ (runStep O s avail).events.filterMap (fun e => e.step),
        x = s.step + 1 := by
      intro x hx
      obtain ⟨e, he, hee⟩ := List.mem_filterMap.mp hx
      have := r14 e he
      rw [this] at hee
      exact (Option.some_inj.mp hee).symm
    by_cases hc : s.step < MAX_STEPS ∧ s.failedAttempts < MAX_FAILED_ATTEMPTS
    · simp only [runLoopAux, if_pos hc]
      rcases hres : (runStep O s avail).result with _ | _ | msg
      · obtain ⟨ihl, ihr⟩ := ih (runStep O s avail).state (runStep O s avail).avail
        rw [r1] at ihl
        constructor
        · intro x hx
          rw [List.filterMap_append] at hx
          rcases List.mem_append.mp hx with hx | hx
          · rw [hstepev x hx]
            exact Nat.le_succ s.step
          · exact le_trans (Nat.le_succ s.step) (ihl x hx)
        · rw [List.filterMap_append]
          refine (List.pairwise_append).mpr ⟨pairwise_le_of_all_eq hstepev, ihr, ?_⟩
          intro x hx y hy
          rw [hstepev x hx]
          exact ihl y hy
      · exact ⟨fun x hx => by rw [hstepev x hx]; exact Nat.le_succ s.step,
          pairwise_le_of_all_eq hstepev⟩
      · have herr : ((runStep O s avail).events ++ [errorEvent msg]).filterMap
            (fun e => e.step) = (runStep O s avail).events.filterMap (fun e => e.step) := by
          rw [List.filterMap_append]
          simp [errorEvent]
        rw [herr]
        exact ⟨fun x hx => by rw [hstepev x hx]; exact Nat.le_succ s.step,
          pairwise_le_of_all_eq hstepev⟩
    · simp only [runLoopAux, if_neg hc]
      exact ⟨fun x hx => le_of_eq ((postLoop_spec O s).1 x hx).symm,
        pairwise_le_of_all_eq (postLoop_spec O s).1⟩

/-! ## Claim theorems -/

/-- C10: for every string `s` and every `maxTokens` value `n`,
`truncateToTokens s n` has length at most `4*n + 3`, returns `s`
unchanged when `s.length ≤ 4*n`, and is idempotent. -/
theorem truncateToTokens_spec (s : String) (n : Nat) :
    (truncateToTokens s n).length ≤ 4 * n + 3 ∧
    (s.length ≤ 4 * n → truncateToTokens s n = s) ∧
    truncateToTokens (truncateToTokens s n) n = truncateToTokens s n := by
  by_cases h : s.length ≤ n * 4
  · have he : truncateToTokens s n = s := by simp [truncateToTokens, h]
    refine ⟨?_, fun _ => he, by rw [he, he]⟩
    rw [he]
    omega
  · have hlen : n * 4 < s.length := Nat.lt_of_not_le h
    have hunfold : ∀ (t : String), ¬ t.length ≤ n * 4 →
        truncateToTokens t n = String.mk (t.data.take (n * 4)) ++ "..." := by
      intro t ht
      show (if t.length ≤ n * 4 then t else String.mk (t.data.take (n * 4)) ++ "...") = _
      rw [if_neg ht]
    have he : truncateToTokens s n = String.mk (s.data.take (n * 4)) ++ "..." :=
      hunfold s h
    have hdata : (String.mk (s.data.take (n * 4)) ++ "...").data
        = s.data.take (n * 4) ++ ['.', '.', '.'] := rfl
    have hdatalen : s.data.length = s.length := rfl
    have htklen : (s.data.take (n * 4)).length = n * 4 := by
      rw [List.length_take]
      omega
    have hlen2 : (truncateToTokens s n).length = n * 4 + 3 := by
      rw [he]
      show (String.mk (s.data.take (n * 4)) ++ "...").data.length = n * 4 + 3
      rw [hdata, List.length_append, htklen]
      rfl
    refine ⟨by rw [hlen2]; omega, fun hc => absurd (by omega : s.length ≤ n * 4) h, ?_⟩
    have hnot : ¬ (truncateToTokens s n).length ≤ n * 4 := by
      rw [hlen2]
      omega
    have htake : (s.data.take (n * 4) ++ ['.', '.', '.']).take (n * 4)
        = s.data.take (n * 4) := by
      calc (s.data.take (n * 4) ++ ['.', '.', '.']).take (n * 4)
          = (s.data.take (n * 4) ++ ['.', '.', '.']).take ((s.data.take (n * 4)).length) := by
            rw [htklen]
        _ = s.data.take (n * 4) := List.take_left _ _
    have hout : truncateToTokens (truncateToTokens s n) n
        = String.mk ((truncateToTokens s n).data.take (n * 4)) ++ "..." :=
      hunfold (truncateToTokens s n) hnot
    rw [hout, he, hdata, htake]

/-- C10 witness: a concrete instance of the theorem with its hypothesis
discharged. -/
theorem truncateToTokens_spec_witness :
    (truncateToTokens "abc" 1).length ≤ 4 * 1 + 3 ∧ truncateToTokens "abc" 1 = "abc" := by
  obtain ⟨h1, h2, -⟩ := truncateToTokens_spec "abc" 1
  exact ⟨h1, h2 (by decide)⟩

/-- C4: whenever the policy response is not parseable as an
`AgentAction` (the parse returns `none`), `getAgentAction` returns —
instead of propagating an error — the safe default decision: action
`search` with the current question as the sole query. -/
theorem getAgentAction_fallback (parse : String → Option AgentAction)
    (state : AgentState) (response : String) (h : parse response = none) :
    getAgentAction parse state response = defaultAction state ∧
    (getAgentAction parse state response).action = "search" ∧
    (getAgentAction parse state response).searchQueries = some [state.currentQuestion] := by
  simp [getAgentAction, h, defaultAction]

/-- C4 witness: a concrete unparseable response. -/
theorem getAgentAction_fallback_witness :
    (getAgentAction (fun _ => none) (initialState "t") "junk").action = "search" ∧
    (getAgentAction (fun _ => none) (initialState "t") "junk").searchQueries = some ["t"] := by
  obtain ⟨-, h2, h3⟩ := getAgentAction_fallback (fun _ => none) (initialState "t") "junk" rfl
  exact ⟨h2, h3⟩

/-- C9: a decision whose action tag is none of search/read/reflect/answer,
or whose matching payload field is absent, dispatches as a no-op: the
state (hence knowledge, gaps, visitedUrls, searchQueries and
failedAttempts) is untouched, no event is emitted, no collaborator is
called, and control returns to the loop head. -/
theorem dispatch_noop (O : Oracles) (a : AgentAction) (s : AgentState) (avail : List String)
    (h : (a.action ≠ "search" ∧ a.action ≠ "read" ∧ a.action ≠ "reflect"
          ∧ a.action ≠ "answer")
      ∨ (a.action = "search" ∧ a.searchQueries = none)
      ∨ (a.action = "read" ∧ a.urlsToRead = none)
      ∨ (a.action = "reflect" ∧ a.gapQuestions = none)) :
    (dispatchAction O a s avail).state = s ∧
    (dispatchAction O a s avail).avail = avail ∧
    (dispatchAction O a s avail).events = [] ∧
    (dispatchAction O a s avail).searchCalls = [] ∧
    (dispatchAction O a s avail).extractCalls = [] ∧
    (dispatchAction O a s avail).synthCalls = 0 ∧
    (dispatchAction O a s avail).result = DispatchKind.next := by
  rcases h with ⟨h1, h2, h3, h4⟩ | ⟨h1, hp⟩ | ⟨h1, hp⟩ | ⟨h1, hp⟩
  · simp [dispatchAction, h1, h2, h3, h4]
  · simp [dispatchAction, h1, hp]
  · simp [dispatchAction, h1, hp]
  · simp [dispatchAction, h1, hp]

/-- C9 witness: a concrete unknown action tag dispatches as a no-op. -/
theorem dispatch_noop_witness :
    (dispatchAction O0 { action := "noop", reasoning := "r" } (initialState "t") []).state
        = initialState "t" ∧
    (dispatchAction O0 { action := "noop", reasoning := "r" } (initialState "t") []).events
        = [] := by
  obtain ⟨h1, -, h3, -⟩ := dispatch_noop O0 { action := "noop", reasoning := "r" }
    (initialState "t") []
    (Or.inl ⟨by decide, by decide, by decide, by decide⟩)
  exact ⟨h1, h3⟩

/-- C5 counterexample: processing a reflect decision on an empty queue
with proposed gaps A and B appends the original question with reason
"Main research question" (capital M), so the queue claimed by C5 —
whose third entry carries reason "main research question" — is not the
one produced. -/
theorem reflect_ordering_cex :
    (dispatchAction O0 aReflectAB (initialState "orig") []).state.gaps
        = [⟨"A", 3, "r1"⟩, ⟨"B", 1, "r2"⟩, ⟨"orig", 1, "Main research question"⟩] ∧
    (dispatchAction O0 aReflectAB (initialState "orig") []).state.gaps
        ≠ [⟨"A", 3, "r1"⟩, ⟨"B", 1, "r2"⟩, ⟨"orig", 1, "main research question"⟩] := by
  constructor
  · decide
  · decide

/-- C5 (amended): processing a reflect decision appends the proposed gap
questions in listed order, then appends the original question with
priority 1 and reason "Main research question" if and only if the queue
does not already contain it; on an empty queue with gaps A and B the
result is exactly A, B, original in that order. -/
theorem reflect_ordering (O : Oracles) (a : AgentAction) (s : AgentState)
    (avail : List String) (gs : List GapQuestion)
    (ha : a.action = "reflect") (hg : a.gapQuestions = some gs) :
    (dispatchAction O a s avail).state.gaps =
      if (s.gaps ++ gs).any (fun g => g.question == s.originalQuestion) then s.gaps ++ gs
      else s.gaps ++ gs ++
        [{ question := s.originalQuestion, priority := 1
           reason := "Main research question" }] := by
  obtain ⟨p1, -⟩ := processReflect_spec gs s
  have hns : a.action ≠ "search" := by rw [ha]; decide
  have hnr : a.action ≠ "read" := by rw [ha]; decide
  simp only [dispatchAction, if_neg hns, if_neg hnr, if_pos ha, hg]
  by_cases hany : (s.gaps ++ gs).any (fun g => g.question == s.originalQuestion) = true
  · have hany2 : (processReflect s gs).1.gaps.any
        (fun g => g.question == s.originalQuestion) = true := by
      rw [p1]
      exact hany
    simp only [if_pos hany2, if_pos hany]
    exact p1
  · have hany2 : ¬ ((processReflect s gs).1.gaps.any
        (fun g => g.question == s.originalQuestion) = true) := by
      rw [p1]
      exact hany
    simp only [if_neg hany2, if_neg hany]
    simp only [p1]

/-- C5 witness: the amended scenario evaluated concretely. -/
theorem reflect_ordering_witness :
    (dispatchAction O0 aReflectAB (initialState "orig") []).state.gaps =
      [⟨"A", 3, "r1"⟩, ⟨"B", 1, "r2"⟩, ⟨"orig", 1, "Main research question"⟩] := by
  have h := reflect_ordering O0 aReflectAB (initialState "orig") []
    [⟨"A", 3, "r1"⟩, ⟨"B", 1, "r2"⟩] rfl rfl
  rw [h]
  decide

/-- C3: an `answer` decision taken while fewer than 3 knowledge items
exist attempts no synthesis, emits no answer event, increments
failedAttempts by exactly 1, emits the insufficiency thinking event,
and hands control back to the loop head (the `continue` path). -/
theorem premature_answer_gate (O : Oracles) (s : AgentState) (avail : List String)
    (a : AgentAction)
    (hp : O.policy (gapDequeue (incStep s)).1
        (candidateUrls (gapDequeue (incStep s)).1 avail) = Except.ok a)
    (ha : a.action = "answer") (hk : s.knowledge.length < 3) :
    (runStep O s avail).synthCalls = 0 ∧
    (runStep O s avail).state.failedAttempts = s.failedAttempts + 1 ∧
    (∀ e ∈ (runStep O s avail).events, e.type ≠ EventType.answer) ∧
    (∃ e ∈ (runStep O s avail).events, e.type = EventType.thinking ∧
      e.message = "Not enough knowledge accumulated yet. Continuing research...") ∧
    (runStep O s avail).result = DispatchKind.next := by
  obtain ⟨g1, g2, g3, g4, g5, g6, g7⟩ := gapDequeue_spec (incStep s)
  have hk2 : (gapDequeue (incStep s)).1.knowledge.length < 3 := by
    rw [g2]
    exact hk
  have hns : a.action ≠ "search" := by rw [ha]; decide
  have hnr : a.action ≠ "read" := by rw [ha]; decide
  have hnf : a.action ≠ "reflect" := by rw [ha]; decide
  have hd : dispatchAction O a (gapDequeue (incStep s)).1 avail =
      ⟨{ (gapDequeue (incStep s)).1 with
          failedAttempts := (gapDequeue (incStep s)).1.failedAttempts + 1 }, avail,
        [{ type := .thinking
           message := "Not enough knowledge accumulated yet. Continuing research..."
           step := some (gapDequeue (incStep s)).1.step }], [], [], 0, .next⟩ := by
    simp [dispatchAction, hns, hnr, hnf, ha, hk2]
  have hrun : runStep O s avail =
      ⟨{ (gapDequeue (incStep s)).1 with
          failedAttempts := (gapDequeue (incStep s)).1.failedAttempts + 1 }, avail,
        progressEvent (incStep s)
          :: ((gapDequeue (incStep s)).2
            ++ ({ type := .thinking, message := a.reasoning,
                  step := some (gapDequeue (incStep s)).1.step,
                  data := some (.actionTag a.action) } : StreamEvent)
              :: [{ type := .thinking
                    message := "Not enough knowledge accumulated yet. Continuing research..."
                    step := some (gapDequeue (incStep s)).1.step }]),
        [], [], 0, .next⟩ := by
    rw [show runStep O s avail =
        { dispatchAction O a (gapDequeue (incStep s)).1 avail with
          events := progressEvent (incStep s)
            :: ((gapDequeue (incStep s)).2
              ++ ({ type := .thinking, message := a.reasoning,
                    step := some (gapDequeue (incStep s)).1.step,
                    data := some (.actionTag a.action) } : StreamEvent)
                :: (dispatchAction O a (gapDequeue (incStep s)).1 avail).events) } by
      simp [runStep, hp]]
    rw [hd]
  rw [hrun]
  refine ⟨rfl, ?_, ?_, ?_, rfl⟩
  · show (gapDequeue (incStep s)).1.failedAttempts + 1 = s.failedAttempts + 1
    rw [g6]
    rfl
  · intro e he
    rcases List.mem_cons.mp he with rfl | he
    · simp [progressEvent]
    · rcases List.mem_append.mp he with he | he
      · rw [(g7 e he).1]
        simp
      · rcases List.mem_cons.mp he with rfl | he
        · simp
        · rcases List.mem_singleton.mp he with rfl
          simp
  · refine ⟨{ type := .thinking
              message := "Not enough knowledge accumulated yet. Continuing research..."
              step := some (gapDequeue (incStep s)).1.step }, ?_, rfl, rfl⟩
    simp

/-- C3 witness: a concrete premature answer at step 1 with empty
knowledge. -/
theorem premature_answer_gate_witness :
    (runStep OAnswer (initialState "t") []).synthCalls = 0 ∧
    (runStep OAnswer (initialState "t") []).state.failedAttempts = 0 + 1 := by
  obtain ⟨h1, h2, -⟩ := premature_answer_gate OAnswer (initialState "t") [] aAnswer
    rfl rfl (by decide)
  exact ⟨h1, h2⟩

/-- C1 counterexample: run the agent with a policy that reflects on B at
step 1 and on C at step 2, then searches.  The queue becomes B, original,
C; steps 3-5 dequeue them in order, ending with currentQuestion = "C"
and an empty queue: at the end of step 5 (and still at the end of the
run) the original question "O" is neither in `gaps` nor equal to
`currentQuestion`, although reflect actions were processed earlier
(witnessed by the two emitted gap events). -/
theorem gap_non_starvation_cex :
    ((runAgent OCex1 "O").events.filter (fun e => e.type == EventType.gap)).length = 2 ∧
    (runAgent OCex1 "O").state.currentQuestion ≠ "O" ∧
    "O" ∉ (runAgent OCex1 "O").state.gaps.map (fun g => g.question) := by
  refine ⟨?_, ?_, ?_⟩
  · decide
  · decide
  · decide

/-- C1 (amended): at the end of every loop step whose decision was a
reflect action with gap questions present, the original question is an
element of the gaps queue (the reflect branch re-appends it whenever it
is absent).  The unconditional form of the claim — original in `gaps`
or equal to `currentQuestion` at the end of every later step — fails,
as the counterexample shows. -/
theorem gap_reappend_after_reflect (O : Oracles) (s : AgentState) (avail : List String)
    (a : AgentAction) (gs : List GapQuestion)
    (hp : O.policy (gapDequeue (incStep s)).1
        (candidateUrls (gapDequeue (incStep s)).1 avail) = Except.ok a)
    (ha : a.action = "reflect") (hg : a.gapQuestions = some gs) :
    s.originalQuestion ∈ (runStep O s avail).state.gaps.map (fun g => g.question) := by
  obtain ⟨g1, g2, g3, g4, g5, g6, g7⟩ := gapDequeue_spec (incStep s)
  have horig : (gapDequeue (incStep s)).1.originalQuestion = s.originalQuestion := g1
  obtain ⟨p1, -⟩ := processReflect_spec gs (gapDequeue (incStep s)).1
  have hns : a.action ≠ "search" := by rw [ha]; decide
  have hnr : a.action ≠ "read" := by rw [ha]; decide
  have hstate : (runStep O s avail).state
      = (dispatchAction O a (gapDequeue (incStep s)).1 avail).state := by
    simp [runStep, hp]
  rw [hstate]
  simp only [dispatchAction, if_neg hns, if_neg hnr, if_pos ha, hg]
  by_cases hany : (processReflect (gapDequeue (incStep s)).1 gs).1.gaps.any
      (fun g => g.question == (gapDequeue (incStep s)).1.originalQuestion) = true
  · simp only [if_pos hany]
    simp only [List.any_eq_true, beq_iff_eq] at hany
    obtain ⟨g, hgmem, hgq⟩ := hany
    exact List.mem_map.mpr ⟨g, hgmem, by rw [hgq, horig]⟩
  · simp only [if_neg hany]
    refine List.mem_map.mpr
      ⟨⟨(gapDequeue (incStep s)).1.originalQuestion, 1, "Main research question"⟩, ?_, horig⟩
    simp

/-- C1 witness: a concrete reflect step leaves the original question in
the queue. -/
theorem gap_reappend_after_reflect_witness :
    "t" ∈ (runStep OReflect (initialState "t") []).state.gaps.map (fun g => g.question) :=
  gap_reappend_after_reflect OReflect (initialState "t") [] aReflectAB
    [⟨"A", 3, "r1"⟩, ⟨"B", 1, "r2"⟩] rfl rfl rfl

/-- C6: across a whole run the queries passed to the search provider are
pairwise distinct (a query already in `searchQueries` is never
re-issued), and within one search decision a query already in
`searchQueries` is neither passed to the provider nor gets a new
knowledge item. -/
theorem no_duplicate_search :
    (∀ (O : Oracles) (topic : String), (runAgent O topic).searchCalls.Nodup) ∧
    (∀ (sr : String → List SearchResult) (s : AgentState) (avail : List String)
        (qs : List String) (q : String), q ∈ s.searchQueries →
      q ∉ (processSearch sr s avail qs).calls ∧
      (∀ k ∈ (processSearch sr s avail qs).state.knowledge,
        k ∈ s.knowledge ∨ k.question ≠ q)) := by
  constructor
  · intro O topic
    have h := runLoopAux_searchNodup O MAX_STEPS (initialState topic) [] List.nodup_nil
    have heq : (runAgent O topic).searchCalls
        = (runLoopAux O MAX_STEPS (initialState topic) []).searchCalls := rfl
    rw [heq]
    exact h.of_append_right
  · intro sr s avail qs q hq
    obtain ⟨p1, p2, p3, p4, -⟩ := processSearch_spec sr qs s avail
    refine ⟨fun hmem => p2 q hmem hq, ?_⟩
    intro k hk
    rcases p4 k hk with h | ⟨h1, -⟩
    · exact Or.inl h
    · right
      intro hcon
      exact p2 k.question h1 (by rw [hcon]; exact hq)

/-- C6 witness: a query already recorded is skipped: no provider call. -/
theorem no_duplicate_search_witness :
    "q" ∉ (processSearch (fun _ => [])
      { initialState "t" with searchQueries := ["q"] } [] ["q"]).calls :=
  (no_duplicate_search.2 (fun _ => [])
    { initialState "t" with searchQueries := ["q"] } [] ["q"] "q" (by decide)).1

/-- C7: across a whole run the URLs passed to the content extractor are
pairwise distinct (a visited URL is never re-extracted); one read
decision extracts at most MAX_URLS_PER_STEP URLs, all drawn from the
first MAX_URLS_PER_STEP entries of the proposed list, skipping visited
ones; and knowledge items are created only for non-empty extracted
content. -/
theorem no_duplicate_visit :
    (∀ (O : Oracles) (topic : String), (runAgent O topic).extractCalls.Nodup) ∧
    (∀ (ex : String → Option String) (s : AgentState) (us : List String) (u : String),
      u ∈ s.visitedUrls → u ∉ (processRead ex s us).calls) ∧
    (∀ (O : Oracles) (a : AgentAction) (s : AgentState) (avail : List String)
        (urls : List String), a.action = "read" → a.urlsToRead = some urls →
      (dispatchAction O a s avail).extractCalls.length ≤ MAX_URLS_PER_STEP ∧
      ∀ u ∈ (dispatchAction O a s avail).extractCalls, u ∈ urls.take MAX_URLS_PER_STEP) ∧
    (∀ (ex : String → Option String) (s : AgentState) (us : List String),
      ∀ k ∈ (processRead ex s us).state.knowledge,
        k ∈ s.knowledge ∨ (k.answer ≠ "" ∧ ∃ u, ex u = some k.answer ∧ k.sources = [u])) := by
  refine ⟨?_, ?_, ?_, ?_⟩
  · intro O topic
    have h := runLoopAux_visitNodup O MAX_STEPS (initialState topic) [] List.nodup_nil
    have heq : (runAgent O topic).extractCalls
        = (runLoopAux O MAX_STEPS (initialState topic) []).extractCalls := rfl
    rw [heq]
    exact h.of_append_right
  · intro ex s us u hu
    obtain ⟨-, p2, -⟩ := processRead_spec ex us s
    exact fun hmem => p2 u hmem hu
  · intro O a s avail urls ha hu
    have hns : a.action ≠ "search" := by rw [ha]; decide
    have hd : (dispatchAction O a s avail).extractCalls
        = (processRead O.extract s (urls.take MAX_URLS_PER_STEP)).calls := by
      simp [dispatchAction, hns, ha, hu]
    obtain ⟨-, -, -, p4, -⟩ := processRead_spec O.extract (urls.take MAX_URLS_PER_STEP) s
    rw [hd]
    exact ⟨le_trans p4.length_le (List.length_take_le _ _),
      fun u hu2 => p4.subset hu2⟩
  · intro ex s us k hk
    obtain ⟨-, -, -, -, p5, -⟩ := processRead_spec ex us s
    rcases p5 k hk with h | ⟨h1, h2, -⟩
    · exact Or.inl h
    · exact Or.inr ⟨h1, h2⟩

/-- C7 witness: a URL already visited is skipped: no extractor call. -/
theorem no_duplicate_visit_witness :
    "u" ∉ (processRead (fun _ => none)
      { initialState "t" with visitedUrls := ["u"] } ["u"]).calls :=
  no_duplicate_visit.2.1 (fun _ => none)
    { initialState "t" with visitedUrls := ["u"] } ["u"] "u" (by decide)

/-- C8: for any oracles and topic, the step values carried by the
emitted events are non-decreasing in emission order, and the final
emitted event is an `answer` or an `error` event (the model has no
cancellation, so this covers every run). -/
theorem event_ordering (O : Oracles) (topic : String) :
    ((runAgent O topic).events.filterMap (fun e => e.step)).Pairwise (· ≤ ·) ∧
    (∃ e, (runAgent O topic).events.getLast? = some e
      ∧ (e.type = EventType.answer ∨ e.type = EventType.error)) := by
  obtain ⟨hlb, hpw⟩ := runLoopAux_sorted O MAX_STEPS (initialState topic) []
  obtain ⟨e, he, ht⟩ := runLoopAux_last O MAX_STEPS (initialState topic) []
  constructor
  · have heq : (runAgent O topic).events
        = startEvent topic :: (runLoopAux O MAX_STEPS (initialState topic) []).events := rfl
    rw [heq, List.filterMap_cons]
    rw [show (startEvent topic).step = some 0 from rfl]
    exact List.Pairwise.cons (fun b _ => Nat.zero_le b) hpw
  · refine ⟨e, ?_, ht⟩
    have heq : (runAgent O topic).events
        = [startEvent topic] ++ (runLoopAux O MAX_STEPS (initialState topic) []).events := rfl
    rw [heq]
    exact getLast?_append_some he _

/-- C2 counterexample: a run whose policy collaborator throws at the
first step (an LLM gateway failure) is not cancelled, yet it attempts
zero synthesis calls before its final event, which is an error event —
refuting "exactly one call to the Report Synthesizer is attempted
before the run's final event". -/
theorem termination_one_synthesis_cex :
    (runAgent OThrow "t").synthCalls = 0 ∧
    (lastEvent (runAgent OThrow "t")).map (fun e => e.type) = some EventType.error := by
  constructor
  · decide
  · decide

/-- C2 (amended): every run executes at most MAX_STEPS iterations and
ends with failedAttempts at most MAX_FAILED_ATTEMPTS; at most one
synthesis call is attempted, and exactly one whenever the policy
collaborator never throws (a policy exception reaches the outer catch
before any synthesis).  The budget-exhaustion scenario — empty
searches, alternating search/reflect policy for all 25 steps —
runs the full MAX_STEPS iterations and ends with a single final
`answer` event whose statistics report zero knowledge items, with no
unhandled error. -/
theorem termination_and_synthesis (O : Oracles) (topic : String) :
    (runAgent O topic).iterations ≤ MAX_STEPS ∧
    (runAgent O topic).state.failedAttempts ≤ MAX_FAILED_ATTEMPTS ∧
    (runAgent O topic).synthCalls ≤ 1 ∧
    (policyTotal O → (runAgent O topic).synthCalls = 1) ∧
    (runAgent OScen "X").iterations = MAX_STEPS ∧
    (lastEvent (runAgent OScen "X")).map (fun e => e.type) = some EventType.answer ∧
    finalKnowledgeStat (runAgent OScen "X") = some 0 := by
  have h1 := runLoopAux_iterations O MAX_STEPS (initialState topic) []
  have h2 := runLoopAux_failed O MAX_STEPS (initialState topic) []
    (Nat.zero_le MAX_FAILED_ATTEMPTS)
  have h3 := runLoopAux_synth O MAX_STEPS (initialState topic) []
  refine ⟨h1, h2, h3.1, fun hp => h3.2 hp, ?_, ?_, ?_⟩
  · decide
  · decide
  · decide

/-- C2 witness: the scenario oracles have a total policy, so exactly one
synthesis is attempted on that run. -/
theorem termination_and_synthesis_witness :
    (runAgent OScen "X").synthCalls = 1 :=
  (termination_and_synthesis OScen "X").2.2.2.1 (fun s urls => ⟨scenAction s, rfl⟩)

end DeepResearch
